import Mathlib

/-!
Verification of the retry/backoff policy core of `gramme`
(`lib/grammers-mtsender/src/retry.rs`): the `RetryPolicy` trait with its
`Fixed` and `NoRetry` implementations, and the `retrying!` loop.

Modelling choices:
* `usize` is modelled as `Nat`; valid `usize` values are those `≤ usizeMax`.
* `std::time::Duration` is modelled as a pair of seconds and nanoseconds.
* `ControlFlow<(), Duration>` is modelled by an explicit two-constructor type.
* A `RetryPolicy` instance, as consumed by the loop, is its `should_retry`
  function `Nat → ControlFlow Unit Duration`.
* The retried operation is modelled by the sequence of results its successive
  invocations produce: `op : Nat → Except E V`, where `op k` is the outcome of
  the k-th invocation (1-indexed).
* The `retrying!` loop may genuinely diverge (a policy that always continues
  against an always-failing operation), so it is modelled with fuel, returning
  `none` when the fuel runs out before the loop exits.  Besides the result the
  model records the number of invocations performed, the list of `attempts`
  values passed to `should_retry` (in call order), and the list of durations
  slept.
-/

namespace Gramme

/-- Model of `std::time::Duration`: seconds and nanoseconds. -/
structure Duration where
  secs : Nat
  nanos : Nat
deriving DecidableEq, Repr

/-- `Duration::ZERO`. -/
def Duration.ZERO : Duration := ⟨0, 0⟩

/-- Model of `std::ops::ControlFlow<B, C>`. -/
inductive ControlFlow (B C : Type) where
  | Break : B → ControlFlow B C
  | Continue : C → ControlFlow B C
deriving DecidableEq, Repr

/-- The decision type returned by `should_retry`: `ControlFlow<(), Duration>`. -/
abbrev RetryDecision := ControlFlow Unit Duration

/-- Model of `struct Fixed { pub attempts: usize, pub delay: Duration }`. -/
structure Fixed where
  attempts : Nat
  delay : Duration
deriving DecidableEq, Repr

/-- Model of `Fixed::new(attempts, delay)`. -/
def Fixed.new (attempts : Nat) (delay : Duration) : Fixed :=
  { attempts := attempts, delay := delay }

/-- Model of `impl RetryPolicy for Fixed`:
`if attempts <= self.attempts { Continue(self.delay) } else { Break(()) }`. -/
def Fixed.should_retry (self : Fixed) (attempts : Nat) : RetryDecision :=
  if attempts ≤ self.attempts then
    ControlFlow.Continue self.delay
  else
    ControlFlow.Break ()

/-- Model of `struct NoRetry` together with `impl RetryPolicy for NoRetry`:
`should_retry` unconditionally returns `Break(())`.  `NoRetry` has no fields,
so the implementation is carried directly by this function. -/
def NoRetry.should_retry (_ : Nat) : RetryDecision :=
  ControlFlow.Break ()

/-- The largest `usize` value on a 64-bit target. -/
def usizeMax : Nat := 2 ^ 64 - 1

/-- Observable outcome of one run of the `retrying!` loop: the value the loop
breaks with, the number of invocations of the operation performed, the
`attempts` arguments passed to `should_retry` in call order, and the durations
passed to `tokio::time::sleep` in call order. -/
structure RetryTrace (E V : Type) where
  result : Except E V
  invocations : Nat
  consults : List Nat
  sleeps : List Duration

/-- Model of the body of the `retrying!` macro, starting with the attempt
counter at `a` and with `fuel` loop iterations allowed.  Each iteration
evaluates the body (`op (a + 1)`, the next invocation), increments the
counter, breaks with the value on `Ok`, and on `Err` consults the policy:
`Continue timeout` sleeps and loops, `Break` breaks with the failed result. -/
def retryingAux {E V : Type} (policy : Nat → RetryDecision) (op : Nat → Except E V) :
    Nat → Nat → Option (RetryTrace E V)
  | _, 0 => none
  | a, fuel + 1 =>
    match op (a + 1) with
    | Except.ok v => some ⟨Except.ok v, a + 1, [], []⟩
    | Except.error e =>
      match policy (a + 1) with
      | ControlFlow.Continue t =>
        match retryingAux policy op (a + 1) fuel with
        | none => none
        | some tr => some ⟨tr.result, tr.invocations, (a + 1) :: tr.consults, t :: tr.sleeps⟩
      | ControlFlow.Break _ => some ⟨Except.error e, a + 1, [a + 1], []⟩

/-- Model of `retrying!(policy, body)`: the loop starts with `attempts = 0`. -/
def retrying {E V : Type} (policy : Nat → RetryDecision) (op : Nat → Except E V)
    (fuel : Nat) : Option (RetryTrace E V) :=
  retryingAux policy op 0 fuel

/-- Structural invariant: a completed run breaks with exactly the value
produced by its final invocation — `Ok value` on the success exit, the final
`res` (an `Err`) on the `Break` exit. -/
theorem retryingAux_result {E V : Type} (policy : Nat → RetryDecision)
    (op : Nat → Except E V) :
    ∀ fuel a tr, retryingAux policy op a fuel = some tr →
      tr.result = op tr.invocations := by
  intro fuel
  induction fuel with
  | zero =>
    intro a tr h
    simp [retryingAux] at h
  | succ fuel ih =>
    intro a tr h
    simp only [retryingAux] at h
    cases hop : op (a + 1) with
    | ok v =>
      simp only [hop] at h
      cases h
      simp [hop]
    | error e =>
      simp only [hop] at h
      cases hpol : policy (a + 1) with
      | Continue t =>
        simp only [hpol] at h
        cases hrec : retryingAux policy op (a + 1) fuel with
        | none => simp [hrec] at h
        | some tr₂ =>
          simp only [hrec] at h
          cases h
          simpa using ih (a + 1) tr₂ hrec
      | Break b =>
        simp only [hpol] at h
        cases h
        simp [hop]

/-- Structural invariant: starting with the attempt counter at `a`, the
`attempts` values passed to `should_retry` during a completed run are the
consecutive values `a + 1, a + 2, …`. -/
theorem retryingAux_consults {E V : Type} (policy : Nat → RetryDecision)
    (op : Nat → Except E V) :
    ∀ fuel a tr, retryingAux policy op a fuel = some tr →
      tr.consults = List.range' (a + 1) tr.consults.length := by
  intro fuel
  induction fuel with
  | zero =>
    intro a tr h
    simp [retryingAux] at h
  | succ fuel ih =>
    intro a tr h
    simp only [retryingAux] at h
    cases hop : op (a + 1) with
    | ok v =>
      simp only [hop] at h
      cases h
      simp
    | error e =>
      simp only [hop] at h
      cases hpol : policy (a + 1) with
      | Continue t =>
        simp only [hpol] at h
        cases hrec : retryingAux policy op (a + 1) fuel with
        | none => simp [hrec] at h
        | some tr₂ =>
          simp only [hrec] at h
          cases h
          have h₂ := ih (a + 1) tr₂ hrec
          show (a + 1) :: tr₂.consults = List.range' (a + 1) ((a + 1) :: tr₂.consults).length
          simp only [List.length_cons, List.range'_succ]
          exact congrArg (List.cons (a + 1)) h₂
      | Break b =>
        simp only [hpol] at h
        cases h
        simp [List.range'_one]

/-- Complete description of a run that ends on the `Break` exit.  Starting
with the attempt counter at `a`: if invocations `a + 1, …, a + m - 1` fail
with the policy continuing on each (with delay `dly (a + j)`), and invocation
`a + m` fails with the policy breaking, then the loop performs exactly `m`
further invocations, consults the policy on `a + 1, …, a + m`, sleeps the
`m - 1` prescribed delays, and breaks with the result of the final
invocation. -/
theorem retryingAux_break_run {E V : Type} (policy : Nat → RetryDecision)
    (op : Nat → Except E V) (dly : Nat → Duration) :
    ∀ fuel a m, 1 ≤ m → m ≤ fuel →
    (∀ j, 1 ≤ j → j < m → ∃ e, op (a + j) = Except.error e) →
    (∀ j, 1 ≤ j → j < m → policy (a + j) = ControlFlow.Continue (dly (a + j))) →
    (∃ e, op (a + m) = Except.error e) →
    policy (a + m) = ControlFlow.Break () →
    retryingAux policy op a fuel =
      some ⟨op (a + m), a + m, List.range' (a + 1) m,
            (List.range' (a + 1) (m - 1)).map dly⟩ := by
  intro fuel
  induction fuel with
  | zero =>
    intro a m h₁ h₂ _ _ _ _
    omega
  | succ fuel ih =>
    intro a m h₁ h₂ hops hpol hlast hbreak
    obtain ⟨m', rfl⟩ : ∃ m', m = m' + 1 := ⟨m - 1, by omega⟩
    cases m' with
    | zero =>
      obtain ⟨e, he⟩ := hlast
      simp only [retryingAux, he, hbreak]
      simp [he, List.range'_one]
    | succ m'' =>
      obtain ⟨e₁, he₁⟩ := hops 1 (by omega) (by omega)
      have hp₁ := hpol 1 (by omega) (by omega)
      have hops' : ∀ j, 1 ≤ j → j < m'' + 1 → ∃ e, op (a + 1 + j) = Except.error e := by
        intro j hj₁ hj₂
        have hx : a + 1 + j = a + (j + 1) := by omega
        rw [hx]
        exact hops (j + 1) (by omega) (by omega)
      have hpol' : ∀ j, 1 ≤ j → j < m'' + 1 →
          policy (a + 1 + j) = ControlFlow.Continue (dly (a + 1 + j)) := by
        intro j hj₁ hj₂
        have hx : a + 1 + j = a + (j + 1) := by omega
        rw [hx]
        exact hpol (j + 1) (by omega) (by omega)
      have hlast' : ∃ e, op (a + 1 + (m'' + 1)) = Except.error e := by
        have hx : a + 1 + (m'' + 1) = a + (m'' + 1 + 1) := by omega
        rw [hx]
        exact hlast
      have hbreak' : policy (a + 1 + (m'' + 1)) = ControlFlow.Break () := by
        have hx : a + 1 + (m'' + 1) = a + (m'' + 1 + 1) := by omega
        rw [hx]
        exact hbreak
      have hrec := ih (a + 1) (m'' + 1) (by omega) (by omega) hops' hpol' hlast' hbreak'
      simp only [retryingAux, he₁, hp₁, hrec]
      have hx : a + 1 + (m'' + 1) = a + (m'' + 1 + 1) := by omega
      rw [hx]
      simp [List.range'_succ, Nat.add_sub_cancel]

/-- Complete description of a run that ends on the success exit.  Starting
with the attempt counter at `a`: if invocations `a + 1, …, a + k - 1` fail
with the policy continuing on each (with delay `dly (a + j)`), and invocation
`a + k` succeeds with `v`, then the loop performs exactly `k` further
invocations, consults the policy only on `a + 1, …, a + k - 1`, sleeps the
`k - 1` prescribed delays, and breaks with `Ok v`. -/
theorem retryingAux_ok_run {E V : Type} (policy : Nat → RetryDecision)
    (op : Nat → Except E V) (dly : Nat → Duration) :
    ∀ fuel a k (v : V), 1 ≤ k → k ≤ fuel →
    (∀ j, 1 ≤ j → j < k → ∃ e, op (a + j) = Except.error e) →
    (∀ j, 1 ≤ j → j < k → policy (a + j) = ControlFlow.Continue (dly (a + j))) →
    op (a + k) = Except.ok v →
    retryingAux policy op a fuel =
      some ⟨Except.ok v, a + k, List.range' (a + 1) (k - 1),
            (List.range' (a + 1) (k - 1)).map dly⟩ := by
  intro fuel
  induction fuel with
  | zero =>
    intro a k v h₁ h₂ _ _ _
    omega
  | succ fuel ih =>
    intro a k v h₁ h₂ hops hpol hok
    obtain ⟨k', rfl⟩ : ∃ k', k = k' + 1 := ⟨k - 1, by omega⟩
    cases k' with
    | zero =>
      simp only [retryingAux, hok]
      simp
    | succ k'' =>
      obtain ⟨e₁, he₁⟩ := hops 1 (by omega) (by omega)
      have hp₁ := hpol 1 (by omega) (by omega)
      have hops' : ∀ j, 1 ≤ j → j < k'' + 1 → ∃ e, op (a + 1 + j) = Except.error e := by
        intro j hj₁ hj₂
        have hx : a + 1 + j = a + (j + 1) := by omega
        rw [hx]
        exact hops (j + 1) (by omega) (by omega)
      have hpol' : ∀ j, 1 ≤ j → j < k'' + 1 →
          policy (a + 1 + j) = ControlFlow.Continue (dly (a + 1 + j)) := by
        intro j hj₁ hj₂
        have hx : a + 1 + j = a + (j + 1) := by omega
        rw [hx]
        exact hpol (j + 1) (by omega) (by omega)
      have hok' : op (a + 1 + (k'' + 1)) = Except.ok v := by
        have hx : a + 1 + (k'' + 1) = a + (k'' + 1 + 1) := by omega
        rw [hx]
        exact hok
      have hrec := ih (a + 1) (k'' + 1) v (by omega) (by omega) hops' hpol' hok'
      simp only [retryingAux, he₁, hp₁, hrec]
      have hx : a + 1 + (k'' + 1) = a + (k'' + 1 + 1) := by omega
      rw [hx]
      simp [List.range'_succ, Nat.add_sub_cancel]

/-- C2: for every `Fixed` policy configuration and every `attempts` value `m`,
`should_retry m` returns `Continue(delay)` when `m ≤ maxAttempts` and
`Break(())` (Stop) when `m > maxAttempts`; in particular, for
`maxAttempts = 0` it returns Stop for every `m ≥ 1`. -/
theorem C2_fixed_should_retry_boundary (cfg : Fixed) (m : Nat) :
    (m ≤ cfg.attempts → cfg.should_retry m = ControlFlow.Continue cfg.delay) ∧
    (cfg.attempts < m → cfg.should_retry m = ControlFlow.Break ()) ∧
    (cfg.attempts = 0 → 1 ≤ m → cfg.should_retry m = ControlFlow.Break ()) := by
  refine ⟨fun h => ?_, fun h => ?_, fun h₀ h₁ => ?_⟩
  · unfold Fixed.should_retry
    rw [if_pos h]
  · unfold Fixed.should_retry
    rw [if_neg (by omega)]
  · unfold Fixed.should_retry
    rw [if_neg (by omega)]

/-- C2 witness: the boundary behaviour at concrete inputs — `Fixed::new(3, 0)`
continues on `attempts = 2`, stops on `attempts = 4`, and `Fixed::new(0, 0)`
stops already on `attempts = 1`. -/
theorem C2_fixed_should_retry_boundary_witness :
    (Fixed.new 3 Duration.ZERO).should_retry 2 = ControlFlow.Continue Duration.ZERO ∧
    (Fixed.new 3 Duration.ZERO).should_retry 4 = ControlFlow.Break () ∧
    (Fixed.new 0 Duration.ZERO).should_retry 1 = ControlFlow.Break () :=
  ⟨(C2_fixed_should_retry_boundary (Fixed.new 3 Duration.ZERO) 2).1 (by decide),
   (C2_fixed_should_retry_boundary (Fixed.new 3 Duration.ZERO) 4).2.1 (by decide),
   (C2_fixed_should_retry_boundary (Fixed.new 0 Duration.ZERO) 1).2.2 rfl (by decide)⟩

/-- C7: `should_retry` is a pure, deterministic function of the `attempts`
argument and the policy's immutable configuration: two `Fixed` policies with
identical configuration yield identical decisions on the same input (in
particular, two calls with the same input on the same policy agree). -/
theorem C7_fixed_should_retry_deterministic (p q : Fixed) (m : Nat)
    (ha : p.attempts = q.attempts) (hd : p.delay = q.delay) :
    p.should_retry m = q.should_retry m := by
  unfold Fixed.should_retry
  rw [ha, hd]

/-- C7 witness: two structurally identical `Fixed` policies agree at a
concrete input. -/
theorem C7_fixed_should_retry_deterministic_witness :
    (Fixed.new 2 Duration.ZERO).should_retry 1 =
      (Fixed.new 2 Duration.ZERO).should_retry 1 :=
  C7_fixed_should_retry_deterministic (Fixed.new 2 Duration.ZERO)
    (Fixed.new 2 Duration.ZERO) 1 rfl rfl

/-- C9: a `Fixed` policy whose `attempts` field is `usize::MAX` yields
`Continue(delay)` on every valid `usize` input: the comparison
`attempts <= self.attempts` always holds, so this configuration never yields
Stop. -/
theorem C9_usize_max_never_stops (d : Duration) (m : Nat) (h : m ≤ usizeMax) :
    (Fixed.new usizeMax d).should_retry m = ControlFlow.Continue d := by
  simp [Fixed.new, Fixed.should_retry, h]

/-- C9 witness: the `usize::MAX` policy continues at input `0`. -/
theorem C9_usize_max_never_stops_witness :
    0 ≤ usizeMax ∧
    (Fixed.new usizeMax Duration.ZERO).should_retry 0 =
      ControlFlow.Continue Duration.ZERO :=
  ⟨Nat.zero_le _, C9_usize_max_never_stops Duration.ZERO 0 (Nat.zero_le _)⟩

/-- C10: `Fixed::new(a, d)` performs no validation and is a plain constructor
round-trip: the constructed policy's `attempts` field is `a` and its `delay`
field is `d`, for every `a` and every `d` (including `Duration::ZERO`). -/
theorem C10_fixed_new_roundtrip (a : Nat) (d : Duration) :
    (Fixed.new a d).attempts = a ∧ (Fixed.new a d).delay = d :=
  ⟨rfl, rfl⟩

/-- C4: whenever the loop exits through the policy's Stop decision — i.e. the
completed run carries an `Err` — the returned value is exactly the `Err`
produced by the final invocation of the operation, unmodified. -/
theorem C4_returns_last_error {E V : Type} (policy : Nat → RetryDecision)
    (op : Nat → Except E V) (fuel : Nat) (tr : RetryTrace E V) (e : E)
    (h : retrying policy op fuel = some tr) (he : tr.result = Except.error e) :
    op tr.invocations = Except.error e := by
  have h₂ := retryingAux_result policy op fuel 0 tr h
  rw [← h₂]
  exact he

/-- C4 witness: with `Fixed::new(1, 0)` and an operation failing with
`10 * j` on its `j`-th invocation, the loop returns `Err 20` — the second
(last) error, not the first error `10`. -/
theorem C4_returns_last_error_witness :
    retrying (Fixed.new 1 Duration.ZERO).should_retry
        (fun j => (Except.error (10 * j) : Except Nat Nat)) 2 =
      some ⟨Except.error 20, 2, [1, 2], [Duration.ZERO]⟩ ∧
    (fun j => (Except.error (10 * j) : Except Nat Nat)) 2 = Except.error 20 :=
  ⟨rfl,
   C4_returns_last_error (Fixed.new 1 Duration.ZERO).should_retry
     (fun j => (Except.error (10 * j) : Except Nat Nat)) 2
     ⟨Except.error 20, 2, [1, 2], [Duration.ZERO]⟩ 20 rfl rfl⟩

/-- C3: within one run, the `attempts` values passed to `should_retry` are
exactly `1, 2, 3, …` in order: the list of consulted values is an initial
segment of the naturals starting at 1 (so it starts at 1, each successive
argument is exactly 1 greater than the previous one) and contains no value
twice. -/
theorem C3_consults_are_sequential {E V : Type} (policy : Nat → RetryDecision)
    (op : Nat → Except E V) (fuel : Nat) (tr : RetryTrace E V)
    (h : retrying policy op fuel = some tr) :
    tr.consults = List.range' 1 tr.consults.length ∧ tr.consults.Nodup := by
  have h₂ := retryingAux_consults policy op fuel 0 tr h
  rw [Nat.zero_add] at h₂
  refine ⟨h₂, ?_⟩
  rw [h₂]
  exact List.nodup_range' _ _

/-- C3 witness: a concrete run under `Fixed::new(1, 0)` with an always-failing
operation consults the policy on exactly `[1, 2]`. -/
theorem C3_consults_are_sequential_witness :
    retrying (Fixed.new 1 Duration.ZERO).should_retry
        (fun j => (Except.error j : Except Nat Nat)) 2 =
      some ⟨Except.error 2, 2, [1, 2], [Duration.ZERO]⟩ ∧
    ([1, 2] : List Nat) = List.range' 1 2 ∧
    ([1, 2] : List Nat).Nodup := by
  have h := C3_consults_are_sequential (Fixed.new 1 Duration.ZERO).should_retry
      (fun j => (Except.error j : Except Nat Nat)) 2
      ⟨Except.error 2, 2, [1, 2], [Duration.ZERO]⟩ rfl
  exact ⟨rfl, h.1, h.2⟩

/-- C6: `NoRetry.should_retry` returns Stop for every `attempts` value, and
consequently with `NoRetry` a failing operation is invoked exactly once, with
zero sleeps, the loop returning that single invocation's failure unmodified —
identical to calling the operation directly once. -/
theorem C6_noretry_single_invocation {E V : Type} (op : Nat → Except E V)
    (e : E) (fuel : Nat) (hop : op 1 = Except.error e) (hfuel : 1 ≤ fuel) :
    (∀ m, NoRetry.should_retry m = ControlFlow.Break ()) ∧
    retrying NoRetry.should_retry op fuel =
      some ⟨Except.error e, 1, [1], []⟩ := by
  refine ⟨fun m => rfl, ?_⟩
  have h := retryingAux_break_run NoRetry.should_retry op (fun _ => Duration.ZERO)
      fuel 0 1 (by omega) (by omega)
      (fun j hj₁ hj₂ => absurd hj₂ (by omega))
      (fun j hj₁ hj₂ => absurd hj₂ (by omega))
      ⟨e, hop⟩
      rfl
  simpa [retrying, hop, List.range'_one] using h

/-- C6 witness: a concrete failing operation under `NoRetry` is invoked once
and its error is returned; `should_retry` also stops at the concrete
input 5. -/
theorem C6_noretry_single_invocation_witness :
    retrying NoRetry.should_retry (fun _ => (Except.error 3 : Except Nat Nat)) 1 =
      some ⟨Except.error 3, 1, [1], []⟩ ∧
    NoRetry.should_retry 5 = ControlFlow.Break () := by
  have h := C6_noretry_single_invocation
      (fun _ => (Except.error 3 : Except Nat Nat)) 3 1 rfl (by decide)
  exact ⟨h.2, h.1 5⟩

/-- C1: for a `Fixed` policy with `maxAttempts = n` and `delay = d`, and an
operation failing on each of its first `n + 1` invocations, the loop performs
exactly `n + 1` invocations (recorded in the trace), consults the policy on
`1, …, n + 1`, sleeps `n` times, and returns the failure produced by the
`(n + 1)`-th invocation.  The conclusion constrains the operation only on
invocations `1, …, n + 1`, so it is independent of later invocations: no
invocation occurs after the policy yields Stop even if a later one would
succeed. -/
theorem C1_fixed_exhaustion {E V : Type} (n : Nat) (d : Duration)
    (op : Nat → Except E V) (fuel : Nat)
    (hops : ∀ k, 1 ≤ k → k ≤ n + 1 → ∃ e, op k = Except.error e)
    (hfuel : n + 1 ≤ fuel) :
    retrying (Fixed.new n d).should_retry op fuel =
      some ⟨op (n + 1), n + 1, List.range' 1 (n + 1), List.replicate n d⟩ := by
  have h := retryingAux_break_run (Fixed.new n d).should_retry op (fun _ => d)
      fuel 0 (n + 1) (by omega) (by omega)
      (by intro j hj₁ hj₂; simpa using hops j hj₁ (by omega))
      (by
        intro j hj₁ hj₂
        have hj : j ≤ n := by omega
        simp [Fixed.new, Fixed.should_retry, hj])
      (by simpa using hops (n + 1) (by omega) (by omega))
      (by
        have hb : ¬n + 1 ≤ n := by omega
        simp [Fixed.new, Fixed.should_retry, hb])
  simpa [retrying, List.map_const', List.length_range', Nat.add_sub_cancel] using h

/-- C1 witness: the spec scenario — `Fixed::new(3, 0)` with an operation
failing on invocations 1–4 and succeeding on invocation 5 returns the call-4
failure after exactly 4 invocations; the 5th invocation never happens. -/
theorem C1_fixed_exhaustion_witness :
    retrying (Fixed.new 3 Duration.ZERO).should_retry
        (fun k => if k ≤ 4 then (Except.error k : Except Nat Nat) else Except.ok 0) 10 =
      some ⟨Except.error 4, 4, [1, 2, 3, 4],
            [Duration.ZERO, Duration.ZERO, Duration.ZERO]⟩ := by
  have h := C1_fixed_exhaustion 3 Duration.ZERO
      (fun k => if k ≤ 4 then (Except.error k : Except Nat Nat) else Except.ok 0) 10
      (fun k hk₁ hk₂ => ⟨k, by simp [show k ≤ 4 from hk₂]⟩) (by decide)
  exact h

/-- C5 counterexample: the claim quantifies over every policy, but under
`NoRetry` an operation failing on invocation 1 and succeeding on invocation 2
(`k = 2`) yields a run with exactly 1 invocation returning the failure — not
2 invocations returning the success. -/
theorem C5_counterexample :
    retrying NoRetry.should_retry
        (fun j => if j = 1 then (Except.error 0 : Except Nat Nat) else Except.ok 7) 5 =
      some ⟨Except.error 0, 1, [1], []⟩ ∧
    (1 : Nat) ≠ 2 ∧
    (Except.error 0 : Except Nat Nat) ≠ Except.ok 7 :=
  ⟨rfl, by decide, fun h => Except.noConfusion h⟩

/-- C5 (amended): for every policy that yields `Continue` on each of the
attempts values `1, …, k - 1`, and every operation that succeeds on its k-th
invocation after failing on invocations `1, …, k - 1`, the loop performs
exactly `k` invocations and returns that success value; the policy is
consulted exactly on `1, …, k - 1` — never after the success — and no further
invocation occurs. -/
theorem C5_success_exit {E V : Type} (policy : Nat → RetryDecision)
    (dly : Nat → Duration) (op : Nat → Except E V) (k : Nat) (v : V) (fuel : Nat)
    (hk : 1 ≤ k) (hfuel : k ≤ fuel)
    (hops : ∀ j, 1 ≤ j → j < k → ∃ e, op j = Except.error e)
    (hpol : ∀ j, 1 ≤ j → j < k → policy j = ControlFlow.Continue (dly j))
    (hok : op k = Except.ok v) :
    retrying policy op fuel =
      some ⟨Except.ok v, k, List.range' 1 (k - 1), (List.range' 1 (k - 1)).map dly⟩ := by
  have h := retryingAux_ok_run policy op dly fuel 0 k v hk hfuel
      (by intro j hj₁ hj₂; simpa using hops j hj₁ hj₂)
      (by intro j hj₁ hj₂; simpa using hpol j hj₁ hj₂)
      (by simpa using hok)
  simpa [retrying] using h

/-- C5 witness: the spec scenario — `Fixed::new(10, 0)` with an operation
failing on invocations 1–5 and succeeding on invocation 6 returns the success
after exactly 6 invocations, the policy having been consulted on
`[1, 2, 3, 4, 5]` only. -/
theorem C5_success_exit_witness :
    retrying (Fixed.new 10 Duration.ZERO).should_retry
        (fun j => if j ≤ 5 then (Except.error j : Except Nat Nat) else Except.ok 99) 6 =
      some ⟨Except.ok 99, 6, [1, 2, 3, 4, 5],
            [Duration.ZERO, Duration.ZERO, Duration.ZERO, Duration.ZERO,
             Duration.ZERO]⟩ := by
  have h := C5_success_exit (Fixed.new 10 Duration.ZERO).should_retry
      (fun _ => Duration.ZERO)
      (fun j => if j ≤ 5 then (Except.error j : Except Nat Nat) else Except.ok 99)
      6 99 6 (by decide) (by decide)
      (fun j hj₁ hj₂ => ⟨j, by simp [show j ≤ 5 from by omega]⟩)
      (by
        intro j hj₁ hj₂
        have hj : j ≤ 10 := by omega
        simp [Fixed.new, Fixed.should_retry, hj])
      rfl
  exact h

end Gramme
